import Mathlib

/-!
Verification of the course-scheduling service (`main.py`, `model_schema.py`).

The two HTTP handlers `create_schedule` and `distribute_groups` are embedded
shallowly.  The CP-SAT solver is an external collaborator: it is modelled by

  * a `status` flag (or, for `distribute_groups`, one flag per time slot)
    telling whether the solve call came back SAT (OPTIMAL/FEASIBLE), and
  * an assignment function `σ` giving the solved boolean value of every
    decision variable, identified by the same key the Python code uses for
    the variable dictionary.

The constraint families the handlers emit are embedded as (decidable)
predicates on `σ`; theorems about solver outputs take "σ satisfies the
emitted model" as a hypothesis, which is exactly the contract of a SAT
answer.  Python `int` fields are `Int` (session counts are `Nat`: Python's
`range(n)` is empty for `n ≤ 0`, so non-positive session counts behave as
`0`).  Python dict comprehensions resolve duplicate keys last-wins; lookups
are embedded accordingly.
-/

namespace CourseScheduling

/-! ## Data model (`model_schema.py`) -/

structure Group where
  id : String
  instructorId : String
  courseId : String
  code : String
  sessions : Nat
  instructor : String
  course : String
  /-- 0 = THEORY, 1 = LAB -/
  type : Int
deriving DecidableEq

structure SlotItem where
  dayId : String
  dayName : String
  timeId : String
  timeName : String
deriving DecidableEq

structure AvailabilityItem where
  teacher : String
  teacherId : String
  slots : List SlotItem
  maxHours : Int
deriving DecidableEq

structure DayItem where
  Name : String
  Id : String
deriving DecidableEq

structure TimeItem where
  Name : String
  Id : String
deriving DecidableEq

structure ScheduleRequest where
  groups : List Group
  availability : List AvailabilityItem
  days : List DayItem
  time_intervals : List TimeItem
  max_courses_per_slot : Int
deriving DecidableEq

structure ScheduledGroup where
  id : String
  code : String
  slot : SlotItem
  students_count : Int
  /-- 0 = THEORY, 1 = LAB -/
  type : Int
deriving DecidableEq

structure Room where
  id : String
  course_type : Int
  capacity : Int
deriving DecidableEq

structure DistributeGroupsRequest where
  scheduled_groups : List ScheduledGroup
  rooms : List Room
deriving DecidableEq

/-! ## Generic helpers -/

instance {ε α : Type} [DecidableEq ε] [DecidableEq α] : DecidableEq (Except ε α)
  | .error e₁, .error e₂ =>
    if h : e₁ = e₂ then isTrue (by rw [h]) else isFalse (by simp [h])
  | .error _, .ok _ => isFalse (by simp)
  | .ok _, .error _ => isFalse (by simp)
  | .ok a₁, .ok a₂ =>
    if h : a₁ = a₂ then isTrue (by rw [h]) else isFalse (by simp [h])

/-- First-occurrence deduplication with an explicit `seen` accumulator:
the key order of a Python `dict`/iteration order of a `set` built by
insertion. -/
def dedup_first_aux {α : Type} [DecidableEq α] (seen : List α) : List α → List α
  | [] => []
  | x :: xs =>
    if x ∈ seen then dedup_first_aux seen xs
    else x :: dedup_first_aux (x :: seen) xs

def dedup_first {α : Type} [DecidableEq α] (l : List α) : List α :=
  dedup_first_aux [] l

/-- Lookup in an association list with Python-dict semantics: when a key is
bound several times the *last* binding wins. -/
def dict_last {α β : Type} [BEq α] (ps : List (α × β)) (k : α) : Option β :=
  (ps.reverse.find? (fun p => p.1 == k)).map (·.2)

/-! ## `create_schedule`: lookup maps (`main.py` lines 27–43) -/

/-- `day_id_to_name = {d.Id: d.Name for d in request.days}`. -/
def day_id_to_name (req : ScheduleRequest) : List (String × String) :=
  req.days.map (fun d => (d.Id, d.Name))

/-- `time_id_to_name = {t.Id: t.Name for t in request.time_intervals}`. -/
def time_id_to_name (req : ScheduleRequest) : List (String × String) :=
  req.time_intervals.map (fun t => (t.Id, t.Name))

/-- `dict.get(i, i)`: resolve an id through an id→name map, falling back to
the raw id when the id is not a key. -/
def get_name (ps : List (String × String)) (i : String) : String :=
  (dict_last ps i).getD i

/-- `time_slots = [(d.Id, t.Id) for d in request.days for t in request.time_intervals]`. -/
def time_slots (req : ScheduleRequest) : List (String × String) :=
  req.days.flatMap (fun d => req.time_intervals.map (fun t => (d.Id, t.Id)))

/-- `availability_dict[a.teacher] = [(s.dayId, s.timeId) for s in a.slots]`
(keyed by teacher *name*, last binding wins). -/
def availability_dict (req : ScheduleRequest) (teacher : String) :
    Option (List (String × String)) :=
  (req.availability.reverse.find? (fun a => a.teacher == teacher)).map
    (fun a => a.slots.map (fun s => (s.dayId, s.timeId)))

/-- `availability_dict.get(inst, [])`, as used by the availability constraint. -/
def allowed_slots (req : ScheduleRequest) (teacher : String) : List (String × String) :=
  (availability_dict req teacher).getD []

/-- `max_hours_dict = {a.teacher: a.maxHours for a in request.availability}`,
`.get(inst, None)`. -/
def max_hours_dict (req : ScheduleRequest) (teacher : String) : Option Int :=
  (req.availability.reverse.find? (fun a => a.teacher == teacher)).map (·.maxHours)

/-- `availability_map = {a.teacherId: a for a in request.availability}` (keyed
by teacher *id*, last binding wins), as used by the validation loop. -/
def availability_map (req : ScheduleRequest) (iid : String) : Option AvailabilityItem :=
  req.availability.reverse.find? (fun a => a.teacherId == iid)

/-- `sorted({g.instructor for g in groups} - set(availability_dict.keys()))`:
the group instructors (by display name) that have no availability entry.
Python sorts the set for the error message; the order is immaterial here, so
first-occurrence order is kept. -/
def missing_teachers (req : ScheduleRequest) : List String :=
  (dedup_first (req.groups.map (·.instructor))).filter
    (fun n => !(req.availability.any (fun a => a.teacher == n)))

/-! ## `create_schedule`: pre-solve validation (`main.py` lines 56–95) -/

/-- One violation message appended to `errors`.  Each constructor mirrors one
f-string of the Python validator, carrying exactly the data interpolated into
that message; the constructors are distinct because the message texts are. -/
inductive VMsg where
  /-- "Instructor {iid} has assigned groups but no availability defined." -/
  | missingRecord (instructorId : String)
  /-- "Instructor {teacher} ({iid}) has {n} sessions but only {m} slots." -/
  | insufficientSlots (teacher instructorId : String) (sessions slots : Nat)
  /-- "Instructor {teacher} with id : ({iid}) has max Hours=0 but is assigned {n} sessions." -/
  | zeroHours (teacher instructorId : String) (sessions : Nat)
  /-- "Instructor {teacher} ({iid}) is assigned {n} sessions but only allowed maxHours={m}." -/
  | budgetExceeded (teacher instructorId : String) (sessions : Nat) (maxHours : Int)
deriving DecidableEq

/-- Keys of `sessions_per_instructor`, in Python dict (first-occurrence)
order. -/
def instructor_ids (gs : List Group) : List String :=
  dedup_first (gs.map (·.instructorId))

/-- `sessions_per_instructor[iid]`: total `g.sessions` over the groups with
this `instructorId`. -/
def sessions_per_instructor (gs : List Group) (iid : String) : Nat :=
  ((gs.filter (fun g => g.instructorId == iid)).map (·.sessions)).sum

/-- The loop body of the validator for one instructor: the missing-record
check (with `continue`) and Rules 1–3, appended in program order. -/
def checks_for (iid : String) (total : Nat) : Option AvailabilityItem → List VMsg
  | none => [.missingRecord iid]
  | some a =>
    (if a.slots.length < total then
       [.insufficientSlots a.teacher iid total a.slots.length] else [])
      ++ (if a.maxHours = 0 ∧ 0 < total then
            [.zeroHours a.teacher iid total] else [])
      ++ (if 0 < a.maxHours ∧ (total : Int) > a.maxHours then
            [.budgetExceeded a.teacher iid total a.maxHours] else [])

/-- The full `errors` list accumulated by the validation loop. -/
def validate (req : ScheduleRequest) : List VMsg :=
  (instructor_ids req.groups).flatMap
    (fun iid =>
      checks_for iid (sessions_per_instructor req.groups iid) (availability_map req iid))

/-! ## `create_schedule`: constraint model (`main.py` lines 100–174)

A decision variable is identified by its dictionary key
`(groupId, sessionIndex, dayId, timeId)`; an assignment `σ` gives each key
its solved boolean value. -/

/-- Variable-key type of the timetabling model. -/
abbrev TimetableVar := String × Nat × String × String

/-- Names iterated by the instructor-indexed constraint loops
(`{g.instructor for g in groups}`). -/
def instructor_names (gs : List Group) : List String :=
  dedup_first (gs.map (·.instructor))

/-- Constraint family 1: each (group, session) is scheduled exactly once —
`sum(x[(g.id, s_idx, d, t)] for d, t in time_slots) == 1`. -/
def exactly_one_con (σ : TimetableVar → Bool) (req : ScheduleRequest) : Prop :=
  ∀ g ∈ req.groups, ∀ s ∈ List.range g.sessions,
    ((time_slots req).map (fun dt => (σ (g.id, s, dt.1, dt.2)).toNat)).sum = 1

/-- Constraint family 2: an instructor teaches at most one session per slot. -/
def instructor_overlap_con (σ : TimetableVar → Bool) (req : ScheduleRequest) : Prop :=
  ∀ n ∈ instructor_names req.groups, ∀ dt ∈ time_slots req,
    ((req.groups.filter (fun g => g.instructor == n)).map (fun g =>
      ((List.range g.sessions).map (fun s => (σ (g.id, s, dt.1, dt.2)).toNat)).sum)).sum ≤ 1

/-- Constraint family 3: variables outside the instructor's availability are
fixed to 0. -/
def availability_con (σ : TimetableVar → Bool) (req : ScheduleRequest) : Prop :=
  ∀ g ∈ req.groups, ∀ s ∈ List.range g.sessions, ∀ dt ∈ time_slots req,
    dt ∉ allowed_slots req g.instructor → σ (g.id, s, dt.1, dt.2) = false

/-- Constraint family 4: groups of the same `courseId` never overlap. -/
def course_overlap_con (σ : TimetableVar → Bool) (req : ScheduleRequest) : Prop :=
  ∀ c ∈ dedup_first (req.groups.map (·.courseId)), ∀ dt ∈ time_slots req,
    ((req.groups.filter (fun g => g.courseId == c)).map (fun g =>
      ((List.range g.sessions).map (fun s => (σ (g.id, s, dt.1, dt.2)).toNat)).sum)).sum ≤ 1

/-- Constraint family 5: at most `max_courses_per_slot` sessions per slot. -/
def slot_capacity_con (σ : TimetableVar → Bool) (req : ScheduleRequest) : Prop :=
  ∀ dt ∈ time_slots req,
    ((req.groups.map (fun g =>
        ((List.range g.sessions).map (fun s => (σ (g.id, s, dt.1, dt.2)).toNat)).sum)).sum : Int)
      ≤ req.max_courses_per_slot

/-- The weighted teaching load of one instructor name under `σ`:
`sum((2 if g.type == 0 else 1) * x[...])` over that instructor's groups,
sessions and time slots. -/
def weighted_load (σ : TimetableVar → Bool) (req : ScheduleRequest) (n : String) : Int :=
  ((req.groups.filter (fun g => g.instructor == n)).map (fun g =>
    ((List.range g.sessions).map (fun s =>
      ((time_slots req).map (fun dt =>
        (if g.type == 0 then (2 : Int) else 1) * (σ (g.id, s, dt.1, dt.2)).toNat)).sum)).sum)).sum

/-- Constraint family 6: the weighted load of every instructor whose name has
a `max_hours_dict` entry is bounded by that entry. -/
def hour_budget_con (σ : TimetableVar → Bool) (req : ScheduleRequest) : Prop :=
  ∀ n ∈ instructor_names req.groups,
    ∀ a ∈ (req.availability.reverse.find? (fun x => x.teacher == n)).toList,
      weighted_load σ req n ≤ a.maxHours

/-- A SAT answer of the solver: the returned assignment satisfies every
constraint the model builder emitted. -/
def satisfying_assignment (σ : TimetableVar → Bool) (req : ScheduleRequest) : Prop :=
  exactly_one_con σ req ∧ instructor_overlap_con σ req ∧ availability_con σ req ∧
    course_overlap_con σ req ∧ slot_capacity_con σ req ∧ hour_budget_con σ req

instance instDecExactlyOne (σ : TimetableVar → Bool) (req : ScheduleRequest) :
    Decidable (exactly_one_con σ req) := by
  unfold exactly_one_con; infer_instance

instance instDecInstructorOverlap (σ : TimetableVar → Bool) (req : ScheduleRequest) :
    Decidable (instructor_overlap_con σ req) := by
  unfold instructor_overlap_con; infer_instance

instance instDecAvailability (σ : TimetableVar → Bool) (req : ScheduleRequest) :
    Decidable (availability_con σ req) := by
  unfold availability_con; infer_instance

instance instDecCourseOverlap (σ : TimetableVar → Bool) (req : ScheduleRequest) :
    Decidable (course_overlap_con σ req) := by
  unfold course_overlap_con; infer_instance

instance instDecSlotCapacity (σ : TimetableVar → Bool) (req : ScheduleRequest) :
    Decidable (slot_capacity_con σ req) := by
  unfold slot_capacity_con; infer_instance

instance instDecHourBudget (σ : TimetableVar → Bool) (req : ScheduleRequest) :
    Decidable (hour_budget_con σ req) := by
  unfold hour_budget_con weighted_load; infer_instance

instance instDecSatisfying (σ : TimetableVar → Bool) (req : ScheduleRequest) :
    Decidable (satisfying_assignment σ req) := by
  unfold satisfying_assignment; infer_instance

/-! ## `create_schedule`: solution extraction and handler (`main.py` lines 179–213) -/

/-- One entry of the returned `schedule` list (field names are the JSON keys
of the emitted dict; the source key `"Type"` is a Lean keyword, hence the
quoted field name). -/
structure Entry where
  GroupId : String
  CourseCode : String
  CourseId : String
  CourseFamily : String
  Session : Nat
  Instructor : String
  InstructorId : String
  DayId : String
  Day : String
  TimeId : String
  Time : String
  «Type» : Int
deriving DecidableEq

def mk_entry (req : ScheduleRequest) (g : Group) (s : Nat) (dt : String × String) : Entry :=
  { GroupId := g.id
    CourseCode := g.code
    CourseId := g.courseId
    CourseFamily := g.course
    Session := s + 1
    Instructor := g.instructor
    InstructorId := g.instructorId
    DayId := dt.1
    Day := get_name (day_id_to_name req) dt.1
    TimeId := dt.2
    Time := get_name (time_id_to_name req) dt.2
    «Type» := g.type }

/-- The collection loop: for each group, session index and time slot (in that
nesting order), emit an entry when the solved value of the variable is 1. -/
def collect_schedule (σ : TimetableVar → Bool) (req : ScheduleRequest) : List Entry :=
  req.groups.flatMap (fun g =>
    (List.range g.sessions).flatMap (fun s =>
      ((time_slots req).filter (fun dt => σ (g.id, s, dt.1, dt.2))).map (mk_entry req g s)))

/-- The failure modes of the `create_schedule` handler (HTTP 400 payloads). -/
inductive SchedErr where
  /-- "Instructors missing in availability: ..." -/
  | missingInstructors (names : List String)
  /-- the accumulated validator violation list -/
  | validationErrors (msgs : List VMsg)
  /-- "No feasible schedule found." -/
  | noFeasibleSchedule
deriving DecidableEq

/-- The `create_schedule` handler.  `status` is the solver verdict
(`true` = OPTIMAL/FEASIBLE) and `σ` the solved variable values. -/
def create_schedule (status : Bool) (σ : TimetableVar → Bool) (req : ScheduleRequest) :
    Except SchedErr (List Entry) :=
  if missing_teachers req ≠ [] then
    .error (.missingInstructors (missing_teachers req))
  else if validate req ≠ [] then
    .error (.validationErrors (validate req))
  else if status then
    .ok (collect_schedule σ req)
  else
    .error .noFeasibleSchedule

/-! ## `distribute_groups` (`main.py` lines 216–272)

One sub-model is built and solved per distinct (dayId, timeId) slot.  The
solver is modelled by a per-slot verdict `status` and a per-slot assignment
`σ` over the room-variable keys `(groupId, roomId)`. -/

/-- Variable-key type of a per-slot room model. -/
abbrev RoomVar := String × String

/-- The `(g.slot.dayId, g.slot.timeId)` key used to partition groups. -/
def slot_key (g : ScheduledGroup) : String × String :=
  (g.slot.dayId, g.slot.timeId)

/-- Keys of `slot_to_groups`, in insertion (first-occurrence) order. -/
def slot_keys (gs : List ScheduledGroup) : List (String × String) :=
  dedup_first (gs.map slot_key)

/-- `slot_to_groups[k]`: the groups of one slot, in input order. -/
def slot_groups (gs : List ScheduledGroup) (k : String × String) : List ScheduledGroup :=
  gs.filter (fun g => slot_key g == k)

/-- The room-compatibility predicate:
`r.capacity >= g.students_count and r.course_type == g.type`. -/
def compat (r : Room) (g : ScheduledGroup) : Bool :=
  g.students_count ≤ r.capacity && r.course_type == g.type

/-- `(gid, rid) in y` for the variable dict `y` built from this slot's
groups: a variable was created for the key iff some group of the slot with
this id is compatible with some room with this id. -/
def has_var (gs : List ScheduledGroup) (rooms : List Room) (gid rid : String) : Bool :=
  gs.any (fun g => g.id == gid && rooms.any (fun r => r.id == rid && compat r g))

/-- Constraint 1 of a slot model: each group is assigned exactly one room —
`sum(y[(g.id, r.id)] for r in rooms if (g.id, r.id) in y) == 1`. -/
def one_room_per_group_con (σs : RoomVar → Bool) (gs : List ScheduledGroup)
    (rooms : List Room) : Prop :=
  ∀ g ∈ gs,
    ((rooms.filter (fun r => has_var gs rooms g.id r.id)).map
      (fun r => (σs (g.id, r.id)).toNat)).sum = 1

/-- Constraint 2 of a slot model: each room holds at most one group —
`sum(y[(g.id, r.id)] for g in groups_in_slot if (g.id, r.id) in y) <= 1`. -/
def one_group_per_room_con (σs : RoomVar → Bool) (gs : List ScheduledGroup)
    (rooms : List Room) : Prop :=
  ∀ r ∈ rooms,
    ((gs.filter (fun g => has_var gs rooms g.id r.id)).map
      (fun g => (σs (g.id, r.id)).toNat)).sum ≤ 1

/-- A SAT answer for one slot model: both emitted constraint families hold. -/
def room_sat (σs : RoomVar → Bool) (gs : List ScheduledGroup) (rooms : List Room) : Prop :=
  one_room_per_group_con σs gs rooms ∧ one_group_per_room_con σs gs rooms

instance instDecOneRoomPerGroup (σs : RoomVar → Bool) (gs : List ScheduledGroup)
    (rooms : List Room) : Decidable (one_room_per_group_con σs gs rooms) := by
  unfold one_room_per_group_con; infer_instance

instance instDecOneGroupPerRoom (σs : RoomVar → Bool) (gs : List ScheduledGroup)
    (rooms : List Room) : Decidable (one_group_per_room_con σs gs rooms) := by
  unfold one_group_per_room_con; infer_instance

instance instDecRoomSat (σs : RoomVar → Bool) (gs : List ScheduledGroup)
    (rooms : List Room) : Decidable (room_sat σs gs rooms) := by
  unfold room_sat; infer_instance

/-- Failure modes of `distribute_groups`.  `noFeasibleRoom` is the HTTP 400
"No feasible room assignment for slot {day}-{time}"; `noRoomFound` models the
`StopIteration` escape of the bare `next(...)` in the extraction loop, which
a satisfying assignment never triggers. -/
inductive DistErr where
  | noFeasibleRoom (day time : String)
  | noRoomFound (groupId : String)
deriving DecidableEq

/-- One output entry: the dict literal of the extraction loop
(`id`, `slot`, `number_size`, `type`, `roomId`). -/
structure DistributedGroup where
  id : String
  slot : SlotItem
  number_size : Int
  type : Int
  roomId : String
deriving DecidableEq

def mk_distributed (g : ScheduledGroup) (rid : String) : DistributedGroup :=
  { id := g.id, slot := g.slot, number_size := g.students_count,
    type := g.type, roomId := rid }

/-- `next(r.id for r in rooms if (g.id, r.id) in y and solver.Value(...) == 1)`:
the first room (in room-list order) whose variable exists and is true. -/
def room_for (σs : RoomVar → Bool) (rooms : List Room)
    (hv : String → String → Bool) (g : ScheduledGroup) : Option Room :=
  rooms.find? (fun r => hv g.id r.id && σs (g.id, r.id))

/-- The relation between an input group and the output entry the extraction
loop produces for it: the entry is built from the first room whose variable
exists and is true. -/
def room_choice (σs : RoomVar → Bool) (rooms : List Room) (hv : String → String → Bool)
    (g : ScheduledGroup) (e : DistributedGroup) : Prop :=
  ∃ r : Room, room_for σs rooms hv g = some r ∧ e = mk_distributed g r.id

/-- The extraction loop of one slot: one output entry per group, in group
order; a group with no true variable raises (modelled as `noRoomFound`). -/
def assign_rooms (σs : RoomVar → Bool) (rooms : List Room)
    (hv : String → String → Bool) : List ScheduledGroup → Except DistErr (List DistributedGroup)
  | [] => .ok []
  | g :: gs =>
    match room_for σs rooms hv g with
    | some r =>
      match assign_rooms σs rooms hv gs with
      | .ok rest => .ok (mk_distributed g r.id :: rest)
      | .error e => .error e
    | none => .error (.noRoomFound g.id)

/-- The per-slot loop: solve each slot in key order; a non-SAT verdict fails
the whole request naming the slot; otherwise the slot's entries are appended
to `final_distribution`. -/
def distribute_loop (status : String × String → Bool) (σ : String × String → RoomVar → Bool)
    (rooms : List Room) (gsAll : List ScheduledGroup) :
    List (String × String) → Except DistErr (List DistributedGroup)
  | [] => .ok []
  | k :: ks =>
    if status k then
      match assign_rooms (σ k) rooms (has_var (slot_groups gsAll k) rooms) (slot_groups gsAll k) with
      | .ok part =>
        match distribute_loop status σ rooms gsAll ks with
        | .ok rest => .ok (part ++ rest)
        | .error e => .error e
      | .error e => .error e
    else .error (.noFeasibleRoom k.1 k.2)

/-- The `distribute_groups` handler. -/
def distribute_groups (status : String × String → Bool)
    (σ : String × String → RoomVar → Bool) (req : DistributeGroupsRequest) :
    Except DistErr (List DistributedGroup) :=
  distribute_loop status σ req.rooms req.scheduled_groups (slot_keys req.scheduled_groups)

/-! ## Field-name view of the `distribute_groups` output

The extraction loop builds a literal Python dict per group; to reason about
the JSON keys themselves (claim C9) each output entry is mapped to its list
of (key, value) pairs. -/

inductive FieldVal where
  | str (s : String)
  | int (n : Int)
  | slotV (s : SlotItem)
deriving DecidableEq

/-- The (key, value) pairs of the dict literal built by the extraction loop,
in source order. -/
def dg_pairs (e : DistributedGroup) : List (String × FieldVal) :=
  [("id", .str e.id), ("slot", .slotV e.slot), ("number_size", .int e.number_size),
   ("type", .int e.type), ("roomId", .str e.roomId)]

/-- Modelled from the spec: the spec's description of a response entry — the
input `ScheduledGroup` with all of its fields passed through unchanged under
their original names (`id`, `code`, `slot`, `students_count`, `type`) plus
the added `roomId`. -/
def spec_passthrough_pairs (g : ScheduledGroup) (rid : String) : List (String × FieldVal) :=
  [("id", .str g.id), ("code", .str g.code), ("slot", .slotV g.slot),
   ("students_count", .int g.students_count), ("type", .int g.type), ("roomId", .str rid)]

/-- The instructor id carried by a violation message (the `instructor_id`
interpolated into every message of the loop body). -/
def vmsg_iid : VMsg → String
  | .missingRecord iid => iid
  | .insufficientSlots _ iid _ _ => iid
  | .zeroHours _ iid _ => iid
  | .budgetExceeded _ iid _ _ => iid

/-! ## Concrete inputs used by the witnesses and counterexamples -/

def slot_d1t1 : SlotItem := { dayId := "d1", dayName := "Mon", timeId := "t1", timeName := "08" }
def slot_d2t1 : SlotItem := { dayId := "d2", dayName := "Tue", timeId := "t1", timeName := "08" }

/-- A group with one session for instructor Alice. -/
def group_w : Group :=
  { id := "g1", instructorId := "i1", courseId := "c1", code := "CS101",
    sessions := 1, instructor := "Alice", course := "CS", type := 0 }

def avail_w : AvailabilityItem :=
  { teacher := "Alice", teacherId := "i1", slots := [slot_d1t1], maxHours := 2 }

/-- A one-group, one-slot schedule request on which the model is satisfiable. -/
def req_w : ScheduleRequest :=
  { groups := [group_w], availability := [avail_w],
    days := [{ Name := "Mon", Id := "d1" }], time_intervals := [{ Name := "08", Id := "t1" }],
    max_courses_per_slot := 1 }

/-- The solved assignment scheduling `g1`'s only session at (d1, t1). -/
def sigma_w : TimetableVar → Bool := fun k => k == ("g1", 0, "d1", "t1")

/-- A request whose instructor id `i1` has no availability record (no entry
with `teacherId = "i1"`), while the display name "Alice" does appear:
the name-based set-difference check passes and the per-instructor loop
reports the missing record instead. -/
def req_c5 : ScheduleRequest :=
  { groups := [group_w],
    availability := [{ teacher := "Alice", teacherId := "i2", slots := [slot_d1t1], maxHours := 2 }],
    days := [{ Name := "Mon", Id := "d1" }], time_intervals := [{ Name := "08", Id := "t1" }],
    max_courses_per_slot := 1 }

/-- A request whose instructor name is absent from availability altogether. -/
def req_c5w : ScheduleRequest :=
  { groups := [group_w], availability := [],
    days := [{ Name := "Mon", Id := "d1" }], time_intervals := [{ Name := "08", Id := "t1" }],
    max_courses_per_slot := 1 }

def group_c6 : Group :=
  { id := "g1", instructorId := "i1", courseId := "c1", code := "CS101",
    sessions := 3, instructor := "Alice", course := "CS", type := 0 }

def avail_c6 : AvailabilityItem :=
  { teacher := "Alice", teacherId := "i1",
    slots := [slot_d1t1, slot_d2t1,
              { dayId := "d3", dayName := "Wed", timeId := "t1", timeName := "08" }],
    maxHours := 2 }

/-- A request exceeding the raw-session budget: 3 sessions, maxHours = 2. -/
def req_c6 : ScheduleRequest :=
  { groups := [group_c6], availability := [avail_c6],
    days := [{ Name := "Mon", Id := "d1" }, { Name := "Tue", Id := "d2" },
             { Name := "Wed", Id := "d3" }],
    time_intervals := [{ Name := "08", Id := "t1" }],
    max_courses_per_slot := 1 }

/-- Two scheduled groups sharing the slot (d1, t1). -/
def sg1 : ScheduledGroup :=
  { id := "G1", code := "CS101", slot := slot_d1t1, students_count := 30, type := 0 }

def sg2 : ScheduledGroup :=
  { id := "G2", code := "CS102", slot := slot_d1t1, students_count := 25, type := 0 }

def room1 : Room := { id := "R1", course_type := 0, capacity := 40 }

def room2 : Room := { id := "R2", course_type := 0, capacity := 35 }

def req_d : DistributeGroupsRequest := { scheduled_groups := [sg1, sg2], rooms := [room1, room2] }

/-- Solver verdict: every slot SAT. -/
def status_d : String × String → Bool := fun _ => true

/-- Solver verdict: every slot UNSAT. -/
def status_c8 : String × String → Bool := fun _ => false

/-- Per-slot room assignment: G1 ↦ R1, G2 ↦ R2. -/
def sigma_d : String × String → RoomVar → Bool :=
  fun _ p => p == ("G1", "R1") || p == ("G2", "R2")

/-! # Theorems -/

/-! ## General list lemmas -/

theorem sum_map_toNat_eq_countP {α : Type} (p : α → Bool) (l : List α) :
    (l.map (fun x => (p x).toNat)).sum = l.countP p := by
  induction l with
  | nil => rfl
  | cons x xs ih =>
    simp only [List.map_cons, List.sum_cons, List.countP_cons, ih]
    cases h : p x <;> simp [h] <;> omega

theorem le_sum_map_of_mem {α : Type} (f : α → Nat) {l : List α} {a : α} (ha : a ∈ l) :
    f a ≤ (l.map f).sum := by
  induction l with
  | nil => cases ha
  | cons x xs ih =>
    simp only [List.map_cons, List.sum_cons]
    rcases List.mem_cons.mp ha with rfl | ha'
    · omega
    · have := ih ha'; omega

theorem two_le_sum_map {α : Type} (f : α → Nat) {l : List α} {a b : α} (hab : a ≠ b)
    (ha : a ∈ l) (hb : b ∈ l) (hfa : 1 ≤ f a) (hfb : 1 ≤ f b) : 2 ≤ (l.map f).sum := by
  induction l with
  | nil => cases ha
  | cons x xs ih =>
    simp only [List.map_cons, List.sum_cons]
    rcases List.mem_cons.mp ha with rfl | ha'
    · rcases List.mem_cons.mp hb with rfl | hb'
      · exact absurd rfl hab
      · have := le_sum_map_of_mem f hb'; omega
    · rcases List.mem_cons.mp hb with rfl | hb'
      · have := le_sum_map_of_mem f ha'; omega
      · have := ih ha' hb'; omega

/-- A sum over a list whose elements carry pairwise distinct keys is `1` when
the single designated element contributes `1` and every other key
contributes `0`. -/
theorem sum_map_eq_one_of_key {α β : Type} (key : α → β) (f : α → Nat) :
    ∀ (l : List α) (a : α), (l.map key).Nodup → a ∈ l → f a = 1 →
      (∀ b ∈ l, key b ≠ key a → f b = 0) → (l.map f).sum = 1 := by
  intro l
  induction l with
  | nil => intro a _ ha; cases ha
  | cons x xs ih =>
    intro a hnd ha hfa hz
    simp only [List.map_cons, List.nodup_cons] at hnd
    obtain ⟨hx, hxs⟩ := hnd
    simp only [List.map_cons, List.sum_cons]
    rcases List.mem_cons.mp ha with rfl | ha'
    · have hzero : ∀ y ∈ xs.map f, y = 0 := by
        intro y hy
        obtain ⟨b, hb, rfl⟩ := List.mem_map.mp hy
        refine hz b (List.mem_cons_of_mem _ hb) ?_
        intro hk
        exact hx (hk ▸ List.mem_map.mpr ⟨b, hb, rfl⟩)
      rw [List.sum_eq_zero hzero, hfa]
      omega
    · have hfx : f x = 0 := by
        refine hz x (List.mem_cons_self x xs) ?_
        intro hk
        exact hx (hk ▸ List.mem_map.mpr ⟨a, ha', rfl⟩)
      rw [hfx]
      simpa using ih a hxs ha' hfa (fun b hb hk => hz b (List.mem_cons_of_mem _ hb) hk)

/-! ## Deduplication lemmas -/

theorem mem_dedup_first_aux {α : Type} [DecidableEq α] (a : α) :
    ∀ (l seen : List α), a ∈ dedup_first_aux seen l ↔ a ∈ l ∧ a ∉ seen := by
  intro l
  induction l with
  | nil => intro seen; simp [dedup_first_aux]
  | cons x xs ih =>
    intro seen
    by_cases hx : x ∈ seen
    · rw [dedup_first_aux, if_pos hx, ih seen, List.mem_cons]
      constructor
      · rintro ⟨h1, h2⟩; exact ⟨Or.inr h1, h2⟩
      · rintro ⟨h1 | h1, h2⟩
        · exact absurd (h1 ▸ hx) h2
        · exact ⟨h1, h2⟩
    · rw [dedup_first_aux, if_neg hx]
      simp only [List.mem_cons, ih (x :: seen)]
      by_cases hax : a = x
      · subst hax; simp [hx]
      · simp [hax]

theorem nodup_dedup_first_aux {α : Type} [DecidableEq α] :
    ∀ (l seen : List α), (dedup_first_aux seen l).Nodup := by
  intro l
  induction l with
  | nil => intro seen; simp [dedup_first_aux]
  | cons x xs ih =>
    intro seen
    by_cases hx : x ∈ seen
    · rw [dedup_first_aux, if_pos hx]; exact ih seen
    · rw [dedup_first_aux, if_neg hx, List.nodup_cons]
      refine ⟨?_, ih _⟩
      intro hmem
      exact ((mem_dedup_first_aux x xs (x :: seen)).mp hmem).2 (List.mem_cons_self x seen)

theorem mem_dedup_first {α : Type} [DecidableEq α] {a : α} {l : List α} :
    a ∈ dedup_first l ↔ a ∈ l := by
  rw [dedup_first, mem_dedup_first_aux]
  simp

theorem nodup_dedup_first {α : Type} [DecidableEq α] (l : List α) :
    (dedup_first l).Nodup :=
  nodup_dedup_first_aux l []

/-! ## `create_schedule` handler shape -/

/-- Inverting a successful `create_schedule` run: the name-based wall and the
validator both passed, the solver reported SAT, and the response is the
collected schedule. -/
theorem create_schedule_ok {status : Bool} {σ : TimetableVar → Bool}
    {req : ScheduleRequest} {out : List Entry}
    (h : create_schedule status σ req = .ok out) :
    missing_teachers req = [] ∧ validate req = [] ∧ status = true ∧
      out = collect_schedule σ req := by
  unfold create_schedule at h
  split_ifs at h with h1 h2 h3 <;> simp at h
  rw [not_ne_iff] at h1 h2
  exact ⟨h1, h2, h3, h.symm⟩

/-! ## Validator membership lemmas -/

theorem vmsg_iid_checks_for {iid : String} {total : Nat} {o : Option AvailabilityItem}
    {v : VMsg} (hv : v ∈ checks_for iid total o) : vmsg_iid v = iid := by
  cases o with
  | none =>
    simp only [checks_for, List.mem_singleton] at hv
    subst hv; rfl
  | some a =>
    simp only [checks_for, List.mem_append] at hv
    rcases hv with (hv | hv) | hv <;>
      · split_ifs at hv <;> simp_all <;> (subst hv; rfl)

/-- A message tagged with instructor id `iid` is in the accumulated error
list iff the loop body for `iid` produced it. -/
theorem mem_validate_iff {req : ScheduleRequest} (v : VMsg) {iid : String}
    (hm : iid ∈ instructor_ids req.groups) (htag : vmsg_iid v = iid) :
    v ∈ validate req ↔
      v ∈ checks_for iid (sessions_per_instructor req.groups iid) (availability_map req iid) := by
  unfold validate
  rw [List.mem_flatMap]
  constructor
  · rintro ⟨iid', _, hv⟩
    have h := vmsg_iid_checks_for hv
    rw [htag] at h
    exact h ▸ hv
  · intro hv
    exact ⟨iid, hm, hv⟩

theorem insufficient_mem_checks {iid : String} {total : Nat} {a : AvailabilityItem} :
    (VMsg.insufficientSlots a.teacher iid total a.slots.length
        ∈ checks_for iid total (some a)) ↔ a.slots.length < total := by
  simp only [checks_for, List.mem_append]
  split_ifs with h1 h2 h3 <;> simp_all

theorem zero_hours_mem_checks {iid : String} {total : Nat} {a : AvailabilityItem} :
    (VMsg.zeroHours a.teacher iid total ∈ checks_for iid total (some a)) ↔
      (a.maxHours = 0 ∧ 0 < total) := by
  simp only [checks_for, List.mem_append]
  split_ifs with h1 h2 h3 <;> simp_all

theorem budget_mem_checks {iid : String} {total : Nat} {a : AvailabilityItem} :
    (VMsg.budgetExceeded a.teacher iid total a.maxHours ∈ checks_for iid total (some a)) ↔
      (0 < a.maxHours ∧ (total : Int) > a.maxHours) := by
  simp only [checks_for, List.mem_append]
  split_ifs with h1 h2 h3 <;> simp_all

/-! ## Claim C5 -/

/-- C5 counterexample: in `req_c5` the instructor id `i1` referenced by the
only group has no availability record (the sole record has `teacherId = i2`),
yet the display name "Alice" matches, so the set-difference check — which
compares `Group.instructor` against `AvailabilityItem.teacher` *names*, not
ids — passes, and the request fails inside the per-instructor loop with the
missing-record violation instead of the request-level missing-instructors
error the claim predicts. -/
theorem missing_by_id_not_request_level :
    create_schedule true sigma_w req_c5 =
        .error (.validationErrors [.missingRecord "i1"]) ∧
      create_schedule true sigma_w req_c5 ≠ .error (.missingInstructors ["i1"]) := by
  decide

/-- C5 (amended): the request-level check is a set-difference over instructor
*display names* (`Group.instructor` vs `AvailabilityItem.teacher`): whenever
some group's instructor name matches no availability entry, the request fails
with the missing-instructors error carrying the missing names, before the
per-instructor validation loop contributes anything. -/
theorem create_schedule_missing_names (status : Bool) (σ : TimetableVar → Bool)
    (req : ScheduleRequest) (g : Group) (hg : g ∈ req.groups)
    (hn : ∀ a ∈ req.availability, a.teacher ≠ g.instructor) :
    create_schedule status σ req = .error (.missingInstructors (missing_teachers req)) := by
  have hmem : g.instructor ∈ missing_teachers req := by
    unfold missing_teachers
    rw [List.mem_filter]
    refine ⟨mem_dedup_first.mpr (List.mem_map.mpr ⟨g, hg, rfl⟩), ?_⟩
    have hany : req.availability.any (fun a => a.teacher == g.instructor) = false := by
      rw [List.any_eq_false]
      intro a ha
      simpa using hn a ha
    simp [hany]
  have hne : missing_teachers req ≠ [] := by
    intro h0
    rw [h0] at hmem
    cases hmem
  unfold create_schedule
  rw [if_pos hne]

theorem create_schedule_missing_names_witness :
    create_schedule true sigma_w req_c5w = .error (.missingInstructors ["Alice"]) := by
  have h := create_schedule_missing_names true sigma_w req_c5w group_w (by decide)
    (by decide)
  simpa using h

/-! ## Claim C6 -/

/-- C6: the validator reports the `HourBudgetExceeded`-class violation for an
instructor (with an availability record) iff that record's max-hours is
positive and the *raw* total of assigned sessions — not the weighted
2-per-THEORY/1-per-LAB cost — exceeds max-hours. -/
theorem hour_budget_rule_iff (req : ScheduleRequest) (iid : String) (a : AvailabilityItem)
    (hm : iid ∈ instructor_ids req.groups)
    (ha : availability_map req iid = some a) :
    (VMsg.budgetExceeded a.teacher iid (sessions_per_instructor req.groups iid) a.maxHours
        ∈ validate req) ↔
      (0 < a.maxHours ∧ (sessions_per_instructor req.groups iid : Int) > a.maxHours) := by
  rw [mem_validate_iff
        (VMsg.budgetExceeded a.teacher iid (sessions_per_instructor req.groups iid) a.maxHours)
        hm rfl,
      ha, budget_mem_checks]

theorem hour_budget_rule_iff_witness :
    VMsg.budgetExceeded "Alice" "i1" 3 2 ∈ validate req_c6 := by
  have h := (hour_budget_rule_iff req_c6 "i1" avail_c6 (by decide) (by decide)).mpr
    (by decide)
  simpa using h

/-! ## Claim C7 -/

/-- C7: the validator never stops at the first violation: for every request
that passes the name wall, each of the three per-record rules contributes its
message to the accumulated list exactly when its condition holds (for every
instructor id with an availability record), and a non-empty list makes the
whole request fail with that complete list — no model is built or solved. -/
theorem validator_accumulates (status : Bool) (σ : TimetableVar → Bool)
    (req : ScheduleRequest) (hwall : missing_teachers req = []) :
    (∀ iid ∈ instructor_ids req.groups, ∀ a, availability_map req iid = some a →
      ((VMsg.insufficientSlots a.teacher iid (sessions_per_instructor req.groups iid)
            a.slots.length ∈ validate req)
          ↔ a.slots.length < sessions_per_instructor req.groups iid) ∧
      ((VMsg.zeroHours a.teacher iid (sessions_per_instructor req.groups iid) ∈ validate req)
          ↔ (a.maxHours = 0 ∧ 0 < sessions_per_instructor req.groups iid)) ∧
      ((VMsg.budgetExceeded a.teacher iid (sessions_per_instructor req.groups iid)
            a.maxHours ∈ validate req)
          ↔ (0 < a.maxHours ∧ (sessions_per_instructor req.groups iid : Int) > a.maxHours))) ∧
    (validate req ≠ [] →
      create_schedule status σ req = .error (.validationErrors (validate req))) := by
  constructor
  · intro iid hm a ha
    refine ⟨?_, ?_, ?_⟩
    · rw [mem_validate_iff
            (VMsg.insufficientSlots a.teacher iid (sessions_per_instructor req.groups iid)
              a.slots.length) hm rfl,
          ha, insufficient_mem_checks]
    · rw [mem_validate_iff
            (VMsg.zeroHours a.teacher iid (sessions_per_instructor req.groups iid)) hm rfl,
          ha, zero_hours_mem_checks]
    · rw [mem_validate_iff
            (VMsg.budgetExceeded a.teacher iid (sessions_per_instructor req.groups iid)
              a.maxHours) hm rfl,
          ha, budget_mem_checks]
  · intro hne
    unfold create_schedule
    rw [if_neg (not_ne_iff.mpr hwall), if_pos hne]

theorem validator_accumulates_witness :
    create_schedule true sigma_w req_c6 = .error (.validationErrors (validate req_c6)) :=
  (validator_accumulates true sigma_w req_c6 (by decide)).2 (by decide)

/-! ## Sum lemmas for the extraction proofs -/

theorem sum_flatMap {α M : Type} [AddMonoid M] (f : α → List M) (l : List α) :
    (l.flatMap f).sum = (l.map (fun a => (f a).sum)).sum := by
  induction l with
  | nil => rfl
  | cons x xs ih => simp [List.flatMap_cons, List.sum_append, ih]

theorem sum_map_filter_eq_sum_ite {α M : Type} [AddMonoid M] (p : α → Bool) (w : α → M)
    (l : List α) :
    ((l.filter p).map w).sum = (l.map (fun a => if p a then w a else 0)).sum := by
  induction l with
  | nil => rfl
  | cons x xs ih =>
    by_cases h : p x <;> simp [List.filter_cons, h, ih]

theorem sum_map_mul_toNat {α : Type} (p : α → Bool) (c : Int) (l : List α) :
    (l.map (fun x => c * ((p x).toNat : Int))).sum = ((l.filter p).map (fun _ => c)).sum := by
  induction l with
  | nil => rfl
  | cons x xs ih =>
    by_cases h : p x <;> simp [List.filter_cons, h, ih]

/-! ## Claim C1 -/

/-- C1: for every `create_schedule` run that passes validation and for which
the solver returns a satisfying assignment, each (group, session-index) pair
with index below the group's session count appears in the returned schedule
exactly once (entries carry `Session = index + 1`). -/
theorem schedule_exactly_once (status : Bool) (σ : TimetableVar → Bool)
    (req : ScheduleRequest) (out : List Entry)
    (hok : create_schedule status σ req = .ok out)
    (hsat : satisfying_assignment σ req)
    (hnd : (req.groups.map (·.id)).Nodup) :
    ∀ g ∈ req.groups, ∀ s ∈ List.range g.sessions,
      out.countP (fun e => e.GroupId == g.id && e.Session == s + 1) = 1 := by
  obtain ⟨-, -, -, rfl⟩ := create_schedule_ok hok
  intro g hg s hs
  unfold collect_schedule
  rw [List.countP_flatMap]
  refine sum_map_eq_one_of_key (·.id) _ req.groups g hnd hg ?_ ?_
  · -- the designated group's sessions contribute exactly one entry
    simp only [Function.comp]
    rw [List.countP_flatMap]
    refine sum_map_eq_one_of_key (fun x => x) _ (List.range g.sessions) s
      (by simpa using List.nodup_range g.sessions) hs ?_ ?_
    · -- the designated session contributes exactly one entry
      simp only [Function.comp]
      rw [List.countP_map]
      have hall : ∀ dt ∈ (time_slots req).filter (fun dt => σ (g.id, s, dt.1, dt.2)),
          ((fun e => e.GroupId == g.id && e.Session == s + 1) ∘ mk_entry req g s) dt = true := by
        intro dt _
        simp [mk_entry]
      rw [List.countP_eq_length.mpr hall, ← List.countP_eq_length_filter,
        ← sum_map_toNat_eq_countP]
      exact hsat.1 g hg s hs
    · -- other session indices contribute nothing
      intro s' _ hne
      simp only [Function.comp]
      rw [List.countP_map, List.countP_eq_zero]
      intro dt _
      simp only [Function.comp, mk_entry]
      simp only [Bool.and_eq_true, beq_iff_eq]
      rintro ⟨-, h⟩
      exact hne (show s' = s by omega)
  · -- other groups contribute nothing
    intro g' _ hne
    simp only [Function.comp]
    rw [List.countP_eq_zero]
    intro e he
    simp only [List.mem_flatMap, List.mem_map] at he
    obtain ⟨s', _, dt, _, rfl⟩ := he
    simp only [mk_entry, Bool.and_eq_true, beq_iff_eq]
    rintro ⟨h, -⟩
    exact hne h

theorem schedule_exactly_once_witness :
    (collect_schedule sigma_w req_w).countP
      (fun e => e.GroupId == "g1" && e.Session == 0 + 1) = 1 := by
  exact schedule_exactly_once true sigma_w req_w (collect_schedule sigma_w req_w) rfl
    (by decide) (by decide) group_w (by decide) 0 (by decide)

/-! ## Claim C2 -/

/-- C2: in every schedule returned by `create_schedule`, the sum over an
instructor's entries of (2 for THEORY / `type = 0`, else 1) is bounded by
that instructor's `max_hours_dict` entry, because the weighted hour
constraint (family 6) is part of the model the solver satisfied. -/
theorem schedule_hour_budget (status : Bool) (σ : TimetableVar → Bool)
    (req : ScheduleRequest) (out : List Entry)
    (hok : create_schedule status σ req = .ok out)
    (hsat : satisfying_assignment σ req) :
    ∀ inst ∈ req.groups.map (·.instructor), ∀ mh : Int,
      max_hours_dict req inst = some mh →
        ((out.filter (fun e => e.Instructor == inst)).map
          (fun e => if e.«Type» == 0 then (2 : Int) else 1)).sum ≤ mh := by
  obtain ⟨-, -, -, rfl⟩ := create_schedule_ok hok
  intro inst hinst mh hmh
  obtain ⟨a, hfind, rfl⟩ := Option.map_eq_some'.mp hmh
  have hbudget : weighted_load σ req inst ≤ a.maxHours :=
    hsat.2.2.2.2.2 inst (mem_dedup_first.mpr hinst) a (by simp [hfind])
  refine le_trans (le_of_eq ?_) hbudget
  unfold collect_schedule weighted_load
  rw [sum_map_filter_eq_sum_ite, List.map_flatMap, sum_flatMap]
  have hstep : ∀ G : Group → Int,
      ((req.groups.filter (fun g => g.instructor == inst)).map G).sum =
        (req.groups.map (fun g => if g.instructor == inst then G g else 0)).sum :=
    fun G => sum_map_filter_eq_sum_ite (fun g => g.instructor == inst) G req.groups
  rw [hstep]
  refine congrArg List.sum (List.map_congr_left ?_)
  intro g _
  rw [List.map_flatMap, sum_flatMap]
  by_cases hgi : g.instructor == inst
  · rw [if_pos hgi]
    refine congrArg List.sum (List.map_congr_left ?_)
    intro s _
    rw [sum_map_mul_toNat (fun dt => σ (g.id, s, dt.1, dt.2))
      (if g.type == 0 then (2 : Int) else 1) (time_slots req), List.map_map]
    refine congrArg List.sum (List.map_congr_left ?_)
    intro dt _
    simp [mk_entry, hgi]
    intro hcon
    exact absurd (by simpa using hgi) hcon
  · rw [if_neg hgi]
    refine List.sum_eq_zero ?_
    intro x hx
    simp only [List.mem_map] at hx
    obtain ⟨s, -, rfl⟩ := hx
    refine List.sum_eq_zero ?_
    intro y hy
    simp only [List.map_map, List.mem_map, Function.comp] at hy
    obtain ⟨dt, -, rfl⟩ := hy
    simp [mk_entry, hgi]

theorem schedule_hour_budget_witness :
    (((collect_schedule sigma_w req_w).filter (fun e => e.Instructor == "Alice")).map
      (fun e => if e.«Type» == 0 then (2 : Int) else 1)).sum ≤ 2 := by
  exact schedule_hour_budget true sigma_w req_w (collect_schedule sigma_w req_w) rfl
    (by decide) "Alice" (by decide) 2 (by decide)

/-! ## Claim C10 -/

/-- C10: every emitted schedule entry resolves its `Day`/`Time` fields from
its `DayId`/`TimeId` through the id→name maps built from the request, and
the resolution function falls back to the raw id (without failing) whenever
the id is absent from the map. -/
theorem schedule_name_resolution (status : Bool) (σ : TimetableVar → Bool)
    (req : ScheduleRequest) (out : List Entry)
    (hok : create_schedule status σ req = .ok out) :
    (∀ e ∈ out, e.Day = get_name (day_id_to_name req) e.DayId ∧
      e.Time = get_name (time_id_to_name req) e.TimeId) ∧
    (∀ ps : List (String × String), ∀ i : String,
      (∀ q ∈ ps, q.1 ≠ i) → get_name ps i = i) := by
  obtain ⟨-, -, -, rfl⟩ := create_schedule_ok hok
  constructor
  · intro e he
    simp only [collect_schedule, List.mem_flatMap, List.mem_map] at he
    obtain ⟨g, -, s, -, dt, -, rfl⟩ := he
    exact ⟨rfl, rfl⟩
  · intro ps i hnone
    have hfind : ps.reverse.find? (fun p => p.1 == i) = none := by
      rw [List.find?_eq_none]
      intro x hx
      simpa using hnone x (List.mem_reverse.mp hx)
    simp [get_name, dict_last, hfind]

theorem schedule_name_resolution_witness :
    (mk_entry req_w group_w 0 ("d1", "t1")).Day =
      get_name (day_id_to_name req_w) (mk_entry req_w group_w 0 ("d1", "t1")).DayId := by
  have h := (schedule_name_resolution true sigma_w req_w (collect_schedule sigma_w req_w)
    rfl).1 (mk_entry req_w group_w 0 ("d1", "t1")) (by decide)
  exact h.1

/-! ## Forall₂ transfer lemmas -/

theorem forall₂_mem_left {α β : Type} {R : α → β → Prop} {l₁ : List α} {l₂ : List β}
    (h : List.Forall₂ R l₁ l₂) : ∀ {a}, a ∈ l₁ → ∃ b ∈ l₂, R a b := by
  induction h with
  | nil => intro a ha; cases ha
  | cons hr _ ih =>
    intro a ha
    rcases List.mem_cons.mp ha with rfl | ha'
    · exact ⟨_, List.mem_cons_self _ _, hr⟩
    · obtain ⟨b, hb, hrb⟩ := ih ha'
      exact ⟨b, List.mem_cons_of_mem _ hb, hrb⟩

theorem forall₂_mem_right {α β : Type} {R : α → β → Prop} {l₁ : List α} {l₂ : List β}
    (h : List.Forall₂ R l₁ l₂) : ∀ {b}, b ∈ l₂ → ∃ a ∈ l₁, R a b := by
  induction h with
  | nil => intro b hb; cases hb
  | cons hr _ ih =>
    intro b hb
    rcases List.mem_cons.mp hb with rfl | hb'
    · exact ⟨_, List.mem_cons_self _ _, hr⟩
    · obtain ⟨a, ha, hra⟩ := ih hb'
      exact ⟨a, List.mem_cons_of_mem _ ha, hra⟩

theorem forall₂_countP {α β : Type} {R : α → β → Prop} (p : β → Bool) (q : α → Bool)
    {l₁ : List α} {l₂ : List β} (h : List.Forall₂ R l₁ l₂)
    (hpq : ∀ a b, R a b → p b = q a) : l₂.countP p = l₁.countP q := by
  induction h with
  | nil => rfl
  | cons hr _ ih => simp [List.countP_cons, ih, hpq _ _ hr]

/-! ## `assign_rooms` inversion -/

theorem assign_rooms_ok {σs : RoomVar → Bool} {rooms : List Room}
    {hv : String → String → Bool} :
    ∀ {gs : List ScheduledGroup} {out : List DistributedGroup},
      assign_rooms σs rooms hv gs = .ok out →
        List.Forall₂ (room_choice σs rooms hv) gs out := by
  intro gs
  induction gs with
  | nil =>
    intro out h
    simp only [assign_rooms] at h
    cases h
    exact List.Forall₂.nil
  | cons g gs ih =>
    intro out h
    simp only [assign_rooms] at h
    cases hr : room_for σs rooms hv g with
    | none => rw [hr] at h; simp at h
    | some r =>
      rw [hr] at h
      cases hrec : assign_rooms σs rooms hv gs with
      | error e => rw [hrec] at h; simp at h
      | ok rest =>
        rw [hrec] at h
        simp only [Except.ok.injEq] at h
        subst h
        exact List.Forall₂.cons ⟨r, hr, rfl⟩ (ih hrec)

theorem assign_rooms_total {σs : RoomVar → Bool} {rooms : List Room}
    {hv : String → String → Bool} :
    ∀ {gs : List ScheduledGroup}, (∀ g ∈ gs, (room_for σs rooms hv g).isSome = true) →
      ∃ out, assign_rooms σs rooms hv gs = .ok out := by
  intro gs
  induction gs with
  | nil => intro _; exact ⟨[], rfl⟩
  | cons g gs ih =>
    intro hall
    obtain ⟨r, hr⟩ := Option.isSome_iff_exists.mp (hall g (List.mem_cons_self g gs))
    obtain ⟨rest, hrest⟩ := ih (fun g' hg' => hall g' (List.mem_cons_of_mem _ hg'))
    exact ⟨mk_distributed g r.id :: rest, by simp only [assign_rooms, hr, hrest]⟩

theorem exists_mem_of_sum_map_ne_zero {α : Type} (f : α → Nat) :
    ∀ {l : List α}, (l.map f).sum ≠ 0 → ∃ x ∈ l, f x ≠ 0 := by
  intro l
  induction l with
  | nil => intro h; simp at h
  | cons x xs ih =>
    intro h
    by_cases hx : f x = 0
    · simp only [List.map_cons, List.sum_cons, hx, Nat.zero_add] at h
      obtain ⟨y, hy, hfy⟩ := ih h
      exact ⟨y, List.mem_cons_of_mem _ hy, hfy⟩
    · exact ⟨x, List.mem_cons_self x xs, hx⟩

/-- Under the exactly-one-room constraint the `next(...)` of the extraction
loop always finds a room. -/
theorem room_for_isSome_of_sat {σs : RoomVar → Bool} {gs : List ScheduledGroup}
    {rooms : List Room} (hA : one_room_per_group_con σs gs rooms)
    {g : ScheduledGroup} (hg : g ∈ gs) :
    (room_for σs rooms (has_var gs rooms) g).isSome = true := by
  have h1 := hA g hg
  have hne : (((rooms.filter (fun r => has_var gs rooms g.id r.id)).map
      (fun r => (σs (g.id, r.id)).toNat)).sum) ≠ 0 := by
    rw [h1]; omega
  obtain ⟨r, hrmem, hfr⟩ := exists_mem_of_sum_map_ne_zero _ hne
  rw [List.mem_filter] at hrmem
  have hσ : σs (g.id, r.id) = true := by
    cases hv : σs (g.id, r.id)
    · rw [hv] at hfr; simp at hfr
    · rfl
  rw [room_for, List.find?_isSome]
  exact ⟨r, hrmem.1, by simp [hrmem.2, hσ]⟩

/-! ## `distribute_loop` inversion -/

theorem distribute_loop_cons_ok {status : String × String → Bool}
    {σ : String × String → RoomVar → Bool} {rooms : List Room}
    {gsAll : List ScheduledGroup} {k : String × String} {ks : List (String × String)}
    {out : List DistributedGroup}
    (h : distribute_loop status σ rooms gsAll (k :: ks) = .ok out) :
    status k = true ∧ ∃ part rest,
      assign_rooms (σ k) rooms (has_var (slot_groups gsAll k) rooms)
          (slot_groups gsAll k) = .ok part ∧
        distribute_loop status σ rooms gsAll ks = .ok rest ∧ out = part ++ rest := by
  simp only [distribute_loop] at h
  cases hk : status k with
  | false => rw [hk] at h; simp at h
  | true =>
    rw [hk] at h
    simp only [if_pos] at h
    cases ha : assign_rooms (σ k) rooms (has_var (slot_groups gsAll k) rooms)
        (slot_groups gsAll k) with
    | error e => rw [ha] at h; simp at h
    | ok part =>
      rw [ha] at h
      cases hr : distribute_loop status σ rooms gsAll ks with
      | error e => rw [hr] at h; simp at h
      | ok rest =>
        rw [hr] at h
        simp only [Except.ok.injEq] at h
        exact ⟨rfl, part, rest, rfl, rfl, h.symm⟩

theorem distribute_loop_nil_ok {status : String × String → Bool}
    {σ : String × String → RoomVar → Bool} {rooms : List Room}
    {gsAll : List ScheduledGroup} {out : List DistributedGroup}
    (h : distribute_loop status σ rooms gsAll [] = .ok out) : out = [] := by
  simp only [distribute_loop] at h
  cases h
  rfl

/-! ## Slot partition helpers -/

theorem mem_slot_groups_self {gs : List ScheduledGroup} {g : ScheduledGroup} (hg : g ∈ gs) :
    g ∈ slot_groups gs (slot_key g) :=
  List.mem_filter.mpr ⟨hg, by simp⟩

theorem slot_key_mem_slot_keys {gs : List ScheduledGroup} {g : ScheduledGroup} (hg : g ∈ gs) :
    slot_key g ∈ slot_keys gs :=
  mem_dedup_first.mpr (List.mem_map.mpr ⟨g, hg, rfl⟩)

theorem slot_key_of_mem_slot_groups {gs : List ScheduledGroup} {k : String × String}
    {g : ScheduledGroup} (hg : g ∈ slot_groups gs k) : slot_key g = k := by
  have h := (List.mem_filter.mp hg).2
  simpa using h

theorem mem_of_mem_slot_groups {gs : List ScheduledGroup} {k : String × String}
    {g : ScheduledGroup} (hg : g ∈ slot_groups gs k) : g ∈ gs :=
  (List.mem_filter.mp hg).1

theorem slot_groups_ids_nodup {gs : List ScheduledGroup} {k : String × String}
    (h : (gs.map (·.id)).Nodup) : ((slot_groups gs k).map (·.id)).Nodup :=
  List.Nodup.sublist (List.Sublist.map _ (List.filter_sublist gs)) h

/-- With duplicate-free group and room ids, a variable key exists for a
(group, room) pair iff the pair satisfies the compatibility predicate:
incompatible pairs are never modelled. -/
theorem has_var_iff_compat {gs : List ScheduledGroup} {rooms : List Room}
    (hgnd : (gs.map (·.id)).Nodup) (hrnd : (rooms.map (·.id)).Nodup)
    {g : ScheduledGroup} {r : Room} (hg : g ∈ gs) (hr : r ∈ rooms) :
    has_var gs rooms g.id r.id = true ↔ compat r g = true := by
  constructor
  · intro h
    unfold has_var at h
    rw [List.any_eq_true] at h
    obtain ⟨g', hg', hcond⟩ := h
    rw [Bool.and_eq_true] at hcond
    obtain ⟨hid, hany⟩ := hcond
    rw [List.any_eq_true] at hany
    obtain ⟨r', hr', hcond'⟩ := hany
    rw [Bool.and_eq_true] at hcond'
    obtain ⟨hid', hcompat⟩ := hcond'
    have hg'g : g' = g := List.inj_on_of_nodup_map hgnd hg' hg (by simpa using hid)
    have hr'r : r' = r := List.inj_on_of_nodup_map hrnd hr' hr (by simpa using hid')
    subst hg'g
    subst hr'r
    exact hcompat
  · intro h
    unfold has_var
    rw [List.any_eq_true]
    refine ⟨g, hg, ?_⟩
    rw [Bool.and_eq_true]
    refine ⟨by simp, ?_⟩
    rw [List.any_eq_true]
    exact ⟨r, hr, by rw [Bool.and_eq_true]; exact ⟨by simp, h⟩⟩

theorem countP_id_eq_one {gs : List ScheduledGroup} (hnd : (gs.map (·.id)).Nodup)
    {g : ScheduledGroup} (hg : g ∈ gs) :
    gs.countP (fun x => x.id == g.id) = 1 := by
  rw [← sum_map_toNat_eq_countP]
  refine sum_map_eq_one_of_key (·.id) _ gs g hnd hg (by simp) ?_
  intro b _ hne
  have hb : (b.id == g.id) = false := by
    rw [beq_eq_false_iff_ne]
    exact hne
  simp [hb]

/-! ## `distribute_loop` facts -/

theorem entry_of_room_choice {σs : RoomVar → Bool} {rooms : List Room}
    {hv : String → String → Bool} {g : ScheduledGroup} {e : DistributedGroup}
    (h : room_choice σs rooms hv g e) :
    e.id = g.id ∧ e.slot = g.slot ∧ e.number_size = g.students_count ∧ e.type = g.type := by
  obtain ⟨r, -, rfl⟩ := h
  exact ⟨rfl, rfl, rfl, rfl⟩

theorem distribute_loop_entry {status : String × String → Bool}
    {σ : String × String → RoomVar → Bool} {rooms : List Room}
    {gsAll : List ScheduledGroup} :
    ∀ {ks : List (String × String)} {out : List DistributedGroup},
      distribute_loop status σ rooms gsAll ks = .ok out →
      ∀ e ∈ out, ∃ k ∈ ks, ∃ g ∈ slot_groups gsAll k,
        room_choice (σ k) rooms (has_var (slot_groups gsAll k) rooms) g e := by
  intro ks
  induction ks with
  | nil =>
    intro out h e he
    rw [distribute_loop_nil_ok h] at he
    cases he
  | cons k kt ih =>
    intro out h e he
    obtain ⟨hk, part, rest, hpart, hrest, rfl⟩ := distribute_loop_cons_ok h
    rcases List.mem_append.mp he with he1 | he2
    · obtain ⟨g, hg, hR⟩ := forall₂_mem_right (assign_rooms_ok hpart) he1
      exact ⟨k, List.mem_cons_self _ _, g, hg, hR⟩
    · obtain ⟨k', hk', g, hg, hR⟩ := ih hrest e he2
      exact ⟨k', List.mem_cons_of_mem _ hk', g, hg, hR⟩

theorem distribute_loop_mem_group {status : String × String → Bool}
    {σ : String × String → RoomVar → Bool} {rooms : List Room}
    {gsAll : List ScheduledGroup} :
    ∀ {ks : List (String × String)} {out : List DistributedGroup},
      distribute_loop status σ rooms gsAll ks = .ok out →
      ∀ g ∈ gsAll, slot_key g ∈ ks →
        ∃ e ∈ out, room_choice (σ (slot_key g)) rooms
          (has_var (slot_groups gsAll (slot_key g)) rooms) g e := by
  intro ks
  induction ks with
  | nil => intro out _ g _ hk; cases hk
  | cons k kt ih =>
    intro out h g hg hk
    obtain ⟨-, part, rest, hpart, hrest, rfl⟩ := distribute_loop_cons_ok h
    rcases List.mem_cons.mp hk with hkk | hk'
    · obtain ⟨e, he, hR⟩ :=
        forall₂_mem_left (assign_rooms_ok hpart) (hkk ▸ mem_slot_groups_self hg)
      exact ⟨e, List.mem_append_left _ he, hkk ▸ hR⟩
    · obtain ⟨e, he, hR⟩ := ih hrest g hg hk'
      exact ⟨e, List.mem_append_right _ he, hR⟩

theorem distribute_loop_count {status : String × String → Bool}
    {σ : String × String → RoomVar → Bool} {rooms : List Room}
    {gsAll : List ScheduledGroup} (gid : String) :
    ∀ {ks : List (String × String)} {out : List DistributedGroup},
      distribute_loop status σ rooms gsAll ks = .ok out →
      out.countP (fun e => e.id == gid) =
        ((ks.map (fun k => (slot_groups gsAll k).countP (fun g => g.id == gid))).sum) := by
  intro ks
  induction ks with
  | nil =>
    intro out h
    rw [distribute_loop_nil_ok h]
    rfl
  | cons k kt ih =>
    intro out h
    obtain ⟨-, part, rest, hpart, hrest, rfl⟩ := distribute_loop_cons_ok h
    rw [List.countP_append, List.map_cons, List.sum_cons, ih hrest]
    have hcount : part.countP (fun e => e.id == gid) =
        (slot_groups gsAll k).countP (fun g => g.id == gid) := by
      refine forall₂_countP _ _ (assign_rooms_ok hpart) ?_
      intro g e hR
      rw [(entry_of_room_choice hR).1]
    rw [hcount]

theorem distribute_loop_bad {status : String × String → Bool}
    {σ : String × String → RoomVar → Bool} {rooms : List Room}
    {gsAll : List ScheduledGroup} :
    ∀ {ks : List (String × String)},
      (∀ k ∈ ks, status k = true → room_sat (σ k) (slot_groups gsAll k) rooms) →
      (∃ k ∈ ks, status k = false) →
      ∃ k : String × String, k ∈ ks ∧ status k = false ∧
        distribute_loop status σ rooms gsAll ks = .error (.noFeasibleRoom k.1 k.2) := by
  intro ks
  induction ks with
  | nil =>
    intro _ hbad
    obtain ⟨k, hk, -⟩ := hbad
    cases hk
  | cons k kt ih =>
    intro hsat hbad
    cases hk : status k with
    | false =>
      refine ⟨k, List.mem_cons_self _ _, hk, ?_⟩
      simp only [distribute_loop]
      simp [hk]
    | true =>
      have hsatk := hsat k (List.mem_cons_self _ _) hk
      obtain ⟨part, hpart⟩ := assign_rooms_total
        (fun g hg => room_for_isSome_of_sat hsatk.1 hg)
      have hbad' : ∃ k' ∈ kt, status k' = false := by
        obtain ⟨k', hk', hf⟩ := hbad
        rcases List.mem_cons.mp hk' with rfl | hmem
        · rw [hk] at hf; cases hf
        · exact ⟨k', hmem, hf⟩
      obtain ⟨k', hk', hf, hloop⟩ :=
        ih (fun k'' hk'' => hsat k'' (List.mem_cons_of_mem _ hk'')) hbad'
      refine ⟨k', List.mem_cons_of_mem _ hk', hf, ?_⟩
      simp only [distribute_loop]
      simp [hk, hpart, hloop]

/-- Within a single slot model whose one-group-per-room constraint holds, the
extraction never assigns the same room to two distinct groups. -/
theorem slot_pairwise {σs : RoomVar → Bool} {gs : List ScheduledGroup} {rooms : List Room}
    {part : List DistributedGroup}
    (hB : one_group_per_room_con σs gs rooms)
    (hgnd : (gs.map (·.id)).Nodup) (hrnd : (rooms.map (·.id)).Nodup)
    (hok : assign_rooms σs rooms (has_var gs rooms) gs = .ok part) :
    ∀ e1 ∈ part, ∀ e2 ∈ part, e1.id ≠ e2.id → e1.roomId ≠ e2.roomId := by
  intro e1 he1 e2 he2 hne heq
  obtain ⟨g1, hg1, hc1⟩ := forall₂_mem_right (assign_rooms_ok hok) he1
  obtain ⟨g2, hg2, hc2⟩ := forall₂_mem_right (assign_rooms_ok hok) he2
  obtain ⟨r1, hfind1, rfl⟩ := hc1
  obtain ⟨r2, hfind2, rfl⟩ := hc2
  have hr1m : r1 ∈ rooms := List.mem_of_find?_eq_some hfind1
  have hr2m : r2 ∈ rooms := List.mem_of_find?_eq_some hfind2
  have hrid : r1.id = r2.id := heq
  have hr12 : r1 = r2 := List.inj_on_of_nodup_map hrnd hr1m hr2m hrid
  subst hr12
  have hp1 := List.find?_some hfind1
  have hp2 := List.find?_some hfind2
  rw [Bool.and_eq_true] at hp1 hp2
  have hgne : g1 ≠ g2 := by
    intro hgg
    exact hne (by rw [hgg])
  have hsum := hB r1 hr1m
  have h2le : 2 ≤ ((gs.filter (fun g => has_var gs rooms g.id r1.id)).map
      (fun g => (σs (g.id, r1.id)).toNat)).sum := by
    refine two_le_sum_map _ hgne ?_ ?_ ?_ ?_
    · exact List.mem_filter.mpr ⟨hg1, hp1.1⟩
    · exact List.mem_filter.mpr ⟨hg2, hp2.1⟩
    · simp [hp1.2]
    · simp [hp2.2]
  omega

/-! ## Partition of a list by key -/

theorem sum_map_add {α : Type} (f g : α → Nat) (l : List α) :
    (l.map (fun x => f x + g x)).sum = (l.map f).sum + (l.map g).sum := by
  induction l with
  | nil => rfl
  | cons x xs ih =>
    simp only [List.map_cons, List.sum_cons, ih]
    omega

theorem sum_indicator_one {β : Type} [BEq β] [LawfulBEq β] (keys : List β) (b : β)
    (hnd : keys.Nodup) (hb : b ∈ keys) :
    (keys.map (fun k => if (b == k) = true then 1 else 0)).sum = 1 := by
  refine sum_map_eq_one_of_key (fun k => k) _ keys b (by simpa using hnd) hb (by simp) ?_
  intro k _ hne
  have : (b == k) = false := by
    rw [beq_eq_false_iff_ne]
    intro hbk
    exact hne (by rw [hbk])
  simp [this]

/-- Splitting a `countP` over a partition of the list into buckets keyed by
pairwise-distinct keys covering every element. -/
theorem sum_countP_filter_eq {α β : Type} [BEq β] [LawfulBEq β] (key : α → β) (q : α → Bool) :
    ∀ (l : List α) (keys : List β), keys.Nodup → (∀ a ∈ l, key a ∈ keys) →
      ((keys.map (fun k => (l.filter (fun a => key a == k)).countP q)).sum) = l.countP q := by
  intro l
  induction l with
  | nil =>
    intro keys _ _
    simp
  | cons a t ih =>
    intro keys hnd hcov
    have hstep : ∀ k : β, (((a :: t).filter (fun x => key x == k)).countP q)
        = (if (key a == k) && q a then 1 else 0)
          + ((t.filter (fun x => key x == k)).countP q) := by
      intro k
      rw [List.filter_cons]
      by_cases hk : (key a == k) = true
      · rw [if_pos hk, List.countP_cons]
        by_cases hq : q a = true <;> simp [hk, hq] <;> omega
      · rw [if_neg hk]
        simp only [Bool.and_eq_true] at *
        simp [hk]
    rw [List.map_congr_left (fun k _ => hstep k), sum_map_add,
      ih keys hnd (fun x hx => hcov x (List.mem_cons_of_mem _ hx)), List.countP_cons]
    by_cases hq : q a = true
    · simp only [hq, Bool.and_true]
      rw [sum_indicator_one keys (key a) hnd (hcov a (List.mem_cons_self a t))]
      simp only [if_true]
      omega
    · have hq' : q a = false := by rwa [Bool.not_eq_true] at hq
      have hzero : (keys.map (fun k => if (key a == k && q a) = true then 1 else 0)).sum = 0 := by
        refine List.sum_eq_zero ?_
        intro x hx
        obtain ⟨k, -, rfl⟩ := List.mem_map.mp hx
        simp [hq']
      rw [hzero, if_neg hq]
      omega

/-! ## Claim C3 -/

/-- C3: on every successful `distribute_groups` run (with duplicate-free
group and room ids), a room-assignment variable exists exactly for the
compatible (group, room) pairs — the exactly-one-room constraint ranges only
over those — and every input group appears exactly once in the output, bound
to a room of sufficient capacity and matching type. -/
theorem distribute_exactly_once_compat (status : String × String → Bool)
    (σ : String × String → RoomVar → Bool) (req : DistributeGroupsRequest)
    (out : List DistributedGroup)
    (hok : distribute_groups status σ req = .ok out)
    (hgnd : (req.scheduled_groups.map (·.id)).Nodup)
    (hrnd : (req.rooms.map (·.id)).Nodup) :
    (∀ k : String × String, ∀ g ∈ slot_groups req.scheduled_groups k, ∀ r ∈ req.rooms,
      (has_var (slot_groups req.scheduled_groups k) req.rooms g.id r.id = true ↔
        compat r g = true)) ∧
    ∀ g ∈ req.scheduled_groups,
      out.countP (fun e => e.id == g.id) = 1 ∧
      ∃ e ∈ out, e.id = g.id ∧ ∃ r ∈ req.rooms, e.roomId = r.id ∧
        g.students_count ≤ r.capacity ∧ r.course_type = g.type := by
  constructor
  · intro k g hg r hr
    exact has_var_iff_compat (slot_groups_ids_nodup hgnd) hrnd hg hr
  · intro g hg
    unfold distribute_groups at hok
    constructor
    · rw [distribute_loop_count g.id hok]
      have heq := sum_countP_filter_eq slot_key (fun x => x.id == g.id)
        req.scheduled_groups (slot_keys req.scheduled_groups)
        (nodup_dedup_first _) (fun a ha => slot_key_mem_slot_keys ha)
      rw [show (fun k => (slot_groups req.scheduled_groups k).countP (fun x => x.id == g.id))
            = (fun k => (req.scheduled_groups.filter (fun a => slot_key a == k)).countP
                (fun x => x.id == g.id)) from rfl]
      rw [heq]
      exact countP_id_eq_one hgnd hg
    · obtain ⟨e, he, hR⟩ := distribute_loop_mem_group hok g hg (slot_key_mem_slot_keys hg)
      obtain ⟨r, hfind, rfl⟩ := hR
      have hrm : r ∈ req.rooms := List.mem_of_find?_eq_some hfind
      have hp := List.find?_some hfind
      rw [Bool.and_eq_true] at hp
      have hcompat : compat r g = true :=
        (has_var_iff_compat (slot_groups_ids_nodup hgnd) hrnd
          (mem_slot_groups_self hg) hrm).mp hp.1
      unfold compat at hcompat
      rw [Bool.and_eq_true] at hcompat
      refine ⟨mk_distributed g r.id, he, rfl, r, hrm, rfl, ?_, ?_⟩
      · exact of_decide_eq_true hcompat.1
      · exact (beq_iff_eq.mp hcompat.2)

theorem distribute_exactly_once_compat_witness :
    ([mk_distributed sg1 "R1", mk_distributed sg2 "R2"] : List DistributedGroup).countP
      (fun e => e.id == "G1") = 1 := by
  have h := (distribute_exactly_once_compat status_d sigma_d req_d
    [mk_distributed sg1 "R1", mk_distributed sg2 "R2"]
    (by decide) (by decide) (by decide)).2 sg1 (by decide)
  exact h.1

/-! ## Claim C4 -/

theorem distribute_loop_pairwise {status : String × String → Bool}
    {σ : String × String → RoomVar → Bool} {rooms : List Room}
    {gsAll : List ScheduledGroup}
    (hgnd : (gsAll.map (·.id)).Nodup) (hrnd : (rooms.map (·.id)).Nodup) :
    ∀ {ks : List (String × String)} {out : List DistributedGroup}, ks.Nodup →
      (∀ k ∈ ks, status k = true → room_sat (σ k) (slot_groups gsAll k) rooms) →
      distribute_loop status σ rooms gsAll ks = .ok out →
      ∀ e1 ∈ out, ∀ e2 ∈ out, e1.id ≠ e2.id →
        (e1.slot.dayId, e1.slot.timeId) = (e2.slot.dayId, e2.slot.timeId) →
        e1.roomId ≠ e2.roomId := by
  intro ks
  induction ks with
  | nil =>
    intro out _ _ h e1 he1 e2 he2
    rw [distribute_loop_nil_ok h] at he1
    simp at he1
  | cons k kt ih =>
    intro out hnd hsat h e1 he1 e2 he2 hne hkey
    obtain ⟨hk, part, rest, hpart, hrest, rfl⟩ := distribute_loop_cons_ok h
    rw [List.nodup_cons] at hnd
    have hkeypart : ∀ e ∈ part, (e.slot.dayId, e.slot.timeId) = k := by
      intro e he
      obtain ⟨g, hg, hR⟩ := forall₂_mem_right (assign_rooms_ok hpart) he
      obtain ⟨r, -, rfl⟩ := hR
      exact slot_key_of_mem_slot_groups hg
    have hkeyrest : ∀ e ∈ rest, (e.slot.dayId, e.slot.timeId) ∈ kt := by
      intro e he
      obtain ⟨k', hk', g, hg, hR⟩ := distribute_loop_entry hrest e he
      obtain ⟨r, -, rfl⟩ := hR
      rw [show ((mk_distributed g r.id).slot.dayId, (mk_distributed g r.id).slot.timeId)
            = slot_key g from rfl, slot_key_of_mem_slot_groups hg]
      exact hk'
    rcases List.mem_append.mp he1 with h1 | h1 <;> rcases List.mem_append.mp he2 with h2 | h2
    · exact slot_pairwise (hsat k (List.mem_cons_self _ _) hk).2
        (slot_groups_ids_nodup hgnd) hrnd hpart e1 h1 e2 h2 hne
    · exfalso
      have hmem : k ∈ kt := by
        rw [← hkeypart e1 h1, hkey]
        exact hkeyrest e2 h2
      exact hnd.1 hmem
    · exfalso
      have hmem : k ∈ kt := by
        rw [← hkeypart e2 h2, ← hkey]
        exact hkeyrest e1 h1
      exact hnd.1 hmem
    · exact ih hnd.2 (fun k'' hk'' => hsat k'' (List.mem_cons_of_mem _ hk'')) hrest
        e1 h1 e2 h2 hne hkey

/-- C4: in every successful `distribute_groups` output (duplicate-free ids,
per-slot models satisfied), two distinct entries sharing the same
(dayId, timeId) slot never carry the same roomId: within each slot model
every room's variables sum to at most 1. -/
theorem distribute_no_room_clash (status : String × String → Bool)
    (σ : String × String → RoomVar → Bool) (req : DistributeGroupsRequest)
    (out : List DistributedGroup)
    (hok : distribute_groups status σ req = .ok out)
    (hgnd : (req.scheduled_groups.map (·.id)).Nodup)
    (hrnd : (req.rooms.map (·.id)).Nodup)
    (hsat : ∀ k ∈ slot_keys req.scheduled_groups, status k = true →
        room_sat (σ k) (slot_groups req.scheduled_groups k) req.rooms) :
    ∀ e1 ∈ out, ∀ e2 ∈ out, e1.id ≠ e2.id →
      e1.slot.dayId = e2.slot.dayId → e1.slot.timeId = e2.slot.timeId →
      e1.roomId ≠ e2.roomId := by
  intro e1 he1 e2 he2 hne hday htime
  unfold distribute_groups at hok
  exact distribute_loop_pairwise hgnd hrnd (nodup_dedup_first _) hsat hok
    e1 he1 e2 he2 hne (by rw [hday, htime])

theorem distribute_no_room_clash_witness :
    (mk_distributed sg1 "R1").roomId ≠ (mk_distributed sg2 "R2").roomId :=
  distribute_no_room_clash status_d sigma_d req_d
    [mk_distributed sg1 "R1", mk_distributed sg2 "R2"]
    (by decide) (by decide) (by decide) (by decide)
    (mk_distributed sg1 "R1") (by decide) (mk_distributed sg2 "R2") (by decide)
    (by decide) (by decide) (by decide)

/-! ## Claim C8 -/

/-- C8: if the solver reports UNSAT (or any non-SAT status) for some
occupied slot, the whole `distribute_groups` request fails with the error
naming a slot on which the solver failed — the result is an `error`, so the
room assignments of previously solved slots are discarded and no partial
distribution is returned. -/
theorem distribute_unsat_fails (status : String × String → Bool)
    (σ : String × String → RoomVar → Bool) (req : DistributeGroupsRequest)
    (hsat : ∀ k ∈ slot_keys req.scheduled_groups, status k = true →
        room_sat (σ k) (slot_groups req.scheduled_groups k) req.rooms)
    (hbad : ∃ k ∈ slot_keys req.scheduled_groups, status k = false) :
    ∃ k : String × String, k ∈ slot_keys req.scheduled_groups ∧ status k = false ∧
      distribute_groups status σ req = .error (.noFeasibleRoom k.1 k.2) := by
  unfold distribute_groups
  exact distribute_loop_bad hsat hbad

theorem distribute_unsat_fails_witness :
    ∃ k : String × String, k ∈ slot_keys req_d.scheduled_groups ∧ status_c8 k = false ∧
      distribute_groups status_c8 sigma_d req_d = .error (.noFeasibleRoom k.1 k.2) :=
  distribute_unsat_fails status_c8 sigma_d req_d (by decide) (by decide)

/-! ## Claim C9 -/

/-- C9 counterexample: on a concrete successful run the emitted dict keys are
`id, slot, number_size, type, roomId` — the input's `students_count` is
renamed to `number_size` and its `code` field is dropped, so an entry is
*not* the input group with all fields passed through under their original
names plus `roomId`. -/
theorem distribute_passthrough_counterexample :
    distribute_groups status_d sigma_d req_d =
        .ok [mk_distributed sg1 "R1", mk_distributed sg2 "R2"] ∧
      (dg_pairs (mk_distributed sg1 "R1")).map (·.1) =
        ["id", "slot", "number_size", "type", "roomId"] ∧
      dg_pairs (mk_distributed sg1 "R1") ≠ spec_passthrough_pairs sg1 "R1" := by
  refine ⟨by decide, by decide, by decide⟩

/-- C9 (amended): each output entry corresponds to an input group whose
`id`, `slot` and `type` are passed through under their original names, whose
`students_count` value is emitted under the key `number_size`, whose `code`
field is dropped, and to which `roomId` is added. -/
theorem distribute_passthrough_renamed (status : String × String → Bool)
    (σ : String × String → RoomVar → Bool) (req : DistributeGroupsRequest)
    (out : List DistributedGroup)
    (hok : distribute_groups status σ req = .ok out) :
    ∀ e ∈ out, ∃ g ∈ req.scheduled_groups,
      e.id = g.id ∧ e.slot = g.slot ∧ e.number_size = g.students_count ∧ e.type = g.type ∧
      dg_pairs e = [("id", .str g.id), ("slot", .slotV g.slot),
        ("number_size", .int g.students_count), ("type", .int g.type),
        ("roomId", .str e.roomId)] := by
  intro e he
  unfold distribute_groups at hok
  obtain ⟨k, -, g, hg, hR⟩ := distribute_loop_entry hok e he
  obtain ⟨hid, hslot, hnum, htype⟩ := entry_of_room_choice hR
  refine ⟨g, mem_of_mem_slot_groups hg, hid, hslot, hnum, htype, ?_⟩
  simp [dg_pairs, hid, hslot, hnum, htype]

theorem distribute_passthrough_renamed_witness :
    ∃ g ∈ req_d.scheduled_groups,
      (mk_distributed sg1 "R1").id = g.id ∧ (mk_distributed sg1 "R1").slot = g.slot ∧
      (mk_distributed sg1 "R1").number_size = g.students_count ∧
      (mk_distributed sg1 "R1").type = g.type ∧
      dg_pairs (mk_distributed sg1 "R1") = [("id", .str g.id), ("slot", .slotV g.slot),
        ("number_size", .int g.students_count), ("type", .int g.type),
        ("roomId", .str (mk_distributed sg1 "R1").roomId)] :=
  distribute_passthrough_renamed status_d sigma_d req_d
    [mk_distributed sg1 "R1", mk_distributed sg2 "R2"] (by decide)
    (mk_distributed sg1 "R1") (by decide)

end CourseScheduling
